import Mathlib

/-!
Verification of the embedded-template static analyzer in
`scripts/validate-blueprint/validate-blueprint.py`.

Template strings are modelled as `List Char`.  The Python regular expressions
used by the analyzer are embedded as executable scanning functions; each
definition keeps the name of the source routine it models.  Diagnostics are
modelled as structured values carrying exactly the data that the source
interpolates into its message strings, so "an Error naming V and U" is the
value holding that pair of names.
-/

namespace Blueprint

/-- ASCII word character, the `\w` class of the source's regexes. -/
def isWordChar (c : Char) : Bool := c.isAlpha || c.isDigit || c = '_'

/-- Leading identifier character, the class `[a-zA-Z_]`. -/
def isIdentStart (c : Char) : Bool := c.isAlpha || c = '_'

/-- Decimal digit, the `\d` class. -/
def isDigitChar (c : Char) : Bool := c.isDigit

/-- Whitespace, the `\s` class over the ASCII range. -/
def isPySpace (c : Char) : Bool :=
  c = ' ' || c = Char.ofNat 9 || c = Char.ofNat 10 || c = Char.ofNat 11 ||
  c = Char.ofNat 12 || c = Char.ofNat 13

/-- Single-quote character. -/
def sq : Char := Char.ofNat 39

/-- Double-quote character. -/
def dq : Char := Char.ofNat 34

/-- Newline character. -/
def nl : Char := Char.ofNat 10

/-- Recursion core of `countSub`.  Every scanning function below recurses on
an explicit fuel that starts at the string's length and decreases by one per
step while the string loses at least one character, so the fuel never runs
out; structural recursion on the fuel keeps the definitions computable by
the kernel. -/
def countSubAux (pat : List Char) : Nat → List Char → Nat
  | _, [] => 0
  | 0, _ => 0
  | fuel + 1, c :: cs =>
    if pat.isPrefixOf (c :: cs) && !pat.isEmpty then
      countSubAux pat fuel ((c :: cs).drop pat.length) + 1
    else
      countSubAux pat fuel cs

/-- Number of non-overlapping occurrences of a non-empty `pat` in a string,
scanning from the left: the semantics of Python `str.count`. -/
def countSub (pat s : List Char) : Nat := countSubAux pat s.length s

/-- Model of `BlueprintValidator._report_results`: the returned verdict (the
printing is ignored).  `True` is "pass". -/
def report_results (errors warnings : List String) : Bool :=
  if errors.isEmpty && warnings.isEmpty then true
  else if errors.isEmpty then true
  else false

/-! ### Regex scanning primitives

The analyzer's regexes are sequences of literals, whitespace gaps and greedy
character classes in which the element following a greedy run can never
consume a character of that run, so greedy maximal matching is faithful to
Python's backtracking semantics for every pattern embedded below. -/

/-- One element of an embedded regex: a literal, `\s*`, `\s+`, a greedy
non-empty run of characters satisfying a predicate (such as `[^)]+`), its
possibly-empty variant, or a two-way literal alternation like `(?:float|int)`
whose branches are never prefixes of one another. -/
inductive Pat where
  | lit (t : List Char)
  | ws0
  | ws1
  | cls1 (p : Char → Bool)
  | cls0 (p : Char → Bool)
  | alt2 (a b : List Char)

/-- Match a sequence of pattern elements at the head of `s`, returning the
rest of the string after the match. -/
def matchPats : List Pat → List Char → Option (List Char)
  | [], s => some s
  | Pat.lit t :: ps, s =>
    if t.isPrefixOf s then matchPats ps (s.drop t.length) else none
  | Pat.ws0 :: ps, s => matchPats ps (s.dropWhile isPySpace)
  | Pat.ws1 :: ps, s =>
    if (s.takeWhile isPySpace).isEmpty then none
    else matchPats ps (s.dropWhile isPySpace)
  | Pat.cls1 p :: ps, s =>
    if (s.takeWhile p).isEmpty then none
    else matchPats ps (s.dropWhile p)
  | Pat.cls0 p :: ps, s => matchPats ps (s.dropWhile p)
  | Pat.alt2 a b :: ps, s =>
    if a.isPrefixOf s then matchPats ps (s.drop a.length)
    else if b.isPrefixOf s then matchPats ps (s.drop b.length)
    else none

/-- Does the pattern sequence match at some position of `s` (the semantics of
`re.search` returning a truthy result)? -/
def searchPats (ps : List Pat) : List Char → Bool
  | [] => (matchPats ps []).isSome
  | c :: cs => (matchPats ps (c :: cs)).isSome || searchPats ps cs

/-- Index of the last occurrence of `pat` in `s`, the semantics of Python
`str.rfind` for a non-empty pattern (with `none` for the `-1` result). -/
def rfindSub (pat s : List Char) : Option Nat :=
  ((List.range s.length).filter (fun i => pat.isPrefixOf (s.drop i))).getLast?

/-- Does the word-bounded pattern `\b v \b` match at position `i` of `s`?
Faithful for the word-character variable names the analyzer deals with. -/
def wbMatchAt (v s : List Char) (i : Nat) : Bool :=
  v.isPrefixOf (s.drop i) &&
  (decide (i = 0) || !isWordChar (s.getD (i - 1) ' ')) &&
  !isWordChar (s.getD (i + v.length) ' ')

/-- All positions of `s` where `\b v \b` matches, in order: the matches that
`re.finditer` iterates in `_check_variable_ordering`. -/
def wbMatchPositions (v s : List Char) : List Nat :=
  (List.range s.length).filter (fun i => wbMatchAt v s i)

/-! ### `_check_variable_ordering` -/

/-- The local `jinja_builtins` set of `_check_variable_ordering`
(source lines 1113-1172). -/
def orderingBuiltins : List String :=
  ["true", "false", "none", "True", "False", "None", "now", "utcnow",
   "as_timestamp", "states", "is_state", "state_attr", "has_value", "expand",
   "device_entities", "area_entities", "integration_entities", "device_attr",
   "area_name", "area_id", "relative_time", "timedelta", "strptime",
   "as_datetime", "as_local", "today_at", "trigger", "this", "repeat",
   "context", "set", "if", "else", "elif", "endif", "for", "endfor", "in",
   "not", "and", "or", "is", "defined", "undefined", "number", "string",
   "mapping", "iterable", "int", "float", "round", "abs", "default", "length",
   "log", "min", "max"]

/-- The string-literal heuristic of `_check_variable_ordering` (source lines
1194-1215): a match at position `pos` with end `endPos` is skipped when, for
one of the two quote characters, an odd number of quotes precedes the match
and the same quote also occurs after it. -/
def orderingMatchInString (value : List Char) (pos endPos : Nat) : Bool :=
  let before := value.take pos
  let after := value.drop endPos
  (decide ((before.count sq) % 2 = 1) && after.contains sq) ||
  (decide ((before.count dq) % 2 = 1) && after.contains dq)

/-- The Jinja-block test of `_check_variable_ordering` (source lines
1217-1233): the match at `pos` counts as inside a Jinja block when some `{{`
or `{%` opener precedes it and no `}}` or `%}` closer sits between that last
opener and the match.  The `-1` results of Python `rfind` are mirrored with
`Int`. -/
def orderingMatchInJinja (value : List Char) (pos : Nat) : Bool :=
  let before := value.take pos
  let lastExprOpen : Int := (rfindSub [Char.ofNat 123, Char.ofNat 123] before).elim (-1) Int.ofNat
  let lastCtrlOpen : Int := (rfindSub [Char.ofNat 123, Char.ofNat 37] before).elim (-1) Int.ofNat
  let lastOpen : Int := max lastExprOpen lastCtrlOpen
  if lastOpen = -1 then false
  else
    let between := before.drop lastOpen.toNat
    decide (countSub [Char.ofNat 125, Char.ofNat 125] between = 0) &&
    decide (countSub [Char.ofNat 37, Char.ofNat 125] between = 0)

/-- One iteration of the `for match in re.finditer(...)` loop of
`_check_variable_ordering`: the match at position `i` establishes
`in_jinja_block` when it is not skipped by the string heuristic and passes
the Jinja-block test. -/
def orderingMatchCounts (value v : List Char) (i : Nat) : Bool :=
  !orderingMatchInString value i (i + v.length) && orderingMatchInJinja value i

/-- The `in_jinja_block` flag computed by `_check_variable_ordering` for one
referenced name `v` inside a template `value`. -/
def refInJinjaBlock (value v : List Char) : Bool :=
  (wbMatchPositions v value).any (orderingMatchCounts value v)

/-- The forward-reference Error of `_check_variable_ordering`; the source
message names both variables, so the diagnostic is modelled by that pair. -/
structure OrderingError where
  fromVar : String
  toVar : String
deriving DecidableEq, Repr

/-- One iteration of the `for other_var in var_order` loop of
`_check_variable_ordering`: skip the variable itself and the builtin names;
otherwise an Error is produced when a word-bounded occurrence of the other
name survives the `re.search` test, lies in a Jinja block per the heuristics
above, and the name is not yet defined. -/
def orderingEntry (var_name : String) (value : List Char)
    (defined_vars : List String) (other_var : String) : Option OrderingError :=
  if other_var = var_name then none
  else if other_var ∈ orderingBuiltins then none
  else if (wbMatchPositions other_var.data value).isEmpty then none
  else if refInJinjaBlock value other_var.data &&
          !decide (other_var ∈ defined_vars) then
    some ⟨var_name, other_var⟩
  else none

/-- Model of `_check_variable_ordering` (source lines 1100-1241). -/
def check_variable_ordering (var_name : String) (value : List Char)
    (defined_vars : List String) (var_order : List String) :
    List OrderingError :=
  var_order.filterMap (orderingEntry var_name value defined_vars)

/-! ### `_check_undefined_variable_references` and
`_extract_variable_references` -/

/-- The class constant `JINJA2_BUILTINS` (source lines 127-402), transcribed
literally; the repeated entries of the Python set literal are kept, which
does not change membership. -/
def JINJA2_BUILTINS : List String :=
  ["true", "false", "none", "True", "False", "None", "if", "else", "elif",
   "endif", "for", "endfor", "in", "not", "and", "or", "is", "set",
   "endset", "macro", "endmacro", "call", "endcall", "filter", "endfilter",
   "block", "endblock", "extends", "include", "import", "from", "as",
   "with", "endwith", "do", "continue", "break", "defined", "undefined",
   "none", "number", "string", "mapping", "iterable", "callable",
   "sequence", "sameas", "escaped", "even", "odd", "divisibleby", "lower",
   "upper", "abs", "attr", "batch", "capitalize", "center", "count",
   "default", "dictsort", "escape", "filesizeformat", "first", "float",
   "forceescape", "format", "groupby", "indent", "int", "items", "join",
   "last", "length", "list", "lower", "map", "max", "min", "pprint",
   "random", "reject", "rejectattr", "replace", "reverse", "round", "safe",
   "select", "selectattr", "slice", "sort", "split", "string", "striptags",
   "sum", "title", "tojson", "trim", "truncate", "unique", "upper",
   "urlencode", "urlize", "wordcount", "wordwrap", "xmlattr", "states",
   "is_state", "state_attr", "is_state_attr", "has_value", "expand",
   "device_entities", "area_entities", "integration_entities",
   "device_attr", "device_id", "area_name", "area_id", "floor_id",
   "floor_name", "label_id", "label_name", "labels", "relative_time",
   "time_since", "timedelta", "strptime", "strftime", "as_timestamp",
   "as_datetime", "as_local", "as_timedelta", "today_at", "now", "utcnow",
   "distance", "closest", "iif", "log", "sin", "cos", "tan", "asin",
   "acos", "atan", "atan2", "sqrt", "e", "pi", "tau", "inf", "average",
   "median", "statistical_mode", "pack", "unpack", "ord", "base64_encode",
   "base64_decode", "slugify", "regex_match", "regex_search",
   "regex_replace", "regex_findall", "regex_findall_index", "urlencode",
   "from_json", "to_json", "value_json", "trigger", "this", "context",
   "repeat", "wait", "namespace", "item", "loop", "index", "index0",
   "first", "last", "length", "cycle", "depth", "depth0", "previtem",
   "nextitem", "changed", "range", "year", "month", "day", "hour",
   "minute", "second", "microsecond", "weekday", "isoweekday",
   "isocalendar", "isoformat", "date", "time", "timestamp", "tzinfo",
   "tzname", "utcoffset", "dst", "timetuple", "state", "attributes",
   "entity_id", "domain", "object_id", "name", "last_changed",
   "last_updated", "last_reported", "context_id", "platform", "event",
   "to_state", "from_state", "for", "idx", "id", "description", "alias",
   "friendly_name", "icon", "unit_of_measurement", "device_class",
   "brightness", "color_temp", "hs_color", "rgb_color", "xy_color",
   "temperature", "humidity", "pressure", "position", "current_position",
   "current_temperature", "target_temperature", "hvac_mode", "hvac_action",
   "fan_mode", "swing_mode", "preset_mode", "speed", "percentage",
   "battery_level", "battery", "power", "voltage", "current", "energy",
   "elevation", "azimuth", "rising", "setting", "next_rising",
   "next_setting"]

/-- The substitution `re.sub(r"q[^q]*q", "", block)` for a quote character
`q`: complete quote pairs and their contents are removed, scanning from the
left; an unpaired final quote and everything after it are kept. -/
def subQuoteAux (q : Char) : Nat → List Char → List Char
  | _, [] => []
  | 0, s => s
  | fuel + 1, c :: cs =>
    if c = q then
      match cs.dropWhile (fun d => !(d = q)) with
      | [] => c :: cs
      | _ :: tail => subQuoteAux q fuel tail
    else c :: subQuoteAux q fuel cs

def subQuote (q : Char) (s : List Char) : List Char := subQuoteAux q s.length s

/-- The substitution `re.sub(r"\b\d+\.?\d*\b", "", cleaned)` of
`_extract_variable_references`, including the backtracking cases where the
regex ends the match at the decimal point or gives the point back.  `prev`
records whether the character before the current position is a word
character (the state of the `\b` look-around; the start of the string counts
as a non-word position). -/
def removeNumsAux : Nat → Bool → List Char → List Char
  | _, _, [] => []
  | 0, _, s => s
  | fuel + 1, prev, c :: cs =>
    if !prev && isDigitChar c then
      if (cs.dropWhile isDigitChar).headD ' ' = '.' then
        if !(((cs.dropWhile isDigitChar).tail).takeWhile isDigitChar).isEmpty then
          if (((cs.dropWhile isDigitChar).tail).dropWhile isDigitChar).isEmpty ||
             !isWordChar ((((cs.dropWhile isDigitChar).tail).dropWhile
               isDigitChar).headD ' ') then
            removeNumsAux fuel true
              (((cs.dropWhile isDigitChar).tail).dropWhile isDigitChar)
          else
            removeNumsAux fuel false ((cs.dropWhile isDigitChar).tail)
        else
          if !((cs.dropWhile isDigitChar).tail).isEmpty &&
             isWordChar (((cs.dropWhile isDigitChar).tail).headD ' ') then
            removeNumsAux fuel false ((cs.dropWhile isDigitChar).tail)
          else removeNumsAux fuel true (cs.dropWhile isDigitChar)
      else
        if (cs.dropWhile isDigitChar).isEmpty ||
           !isWordChar ((cs.dropWhile isDigitChar).headD ' ') then
          removeNumsAux fuel true (cs.dropWhile isDigitChar)
        else c :: removeNumsAux fuel true cs
    else c :: removeNumsAux fuel (isWordChar c) cs

def removeNums (prev : Bool) (s : List Char) : List Char :=
  removeNumsAux s.length prev s

/-- The substitution `re.sub(r"\.([a-zA-Z_][a-zA-Z0-9_]*)", "", cleaned)` of
`_extract_variable_references`: a dot followed by an identifier is removed
together with the identifier. -/
def removeAttrsAux : Nat → List Char → List Char
  | _, [] => []
  | 0, s => s
  | fuel + 1, c :: cs =>
    if c = '.' && isIdentStart (cs.headD ' ') then
      removeAttrsAux fuel (cs.dropWhile isWordChar)
    else c :: removeAttrsAux fuel cs

def removeAttrs (s : List Char) : List Char := removeAttrsAux s.length s

/-- The substitution `re.sub(r"\b([a-zA-Z_][a-zA-Z0-9_]*)\s*=", "=", cleaned)`
of `_extract_variable_references`: a word-bounded identifier followed by
optional whitespace and `=` is replaced by the `=` alone.  `prev` is the
word-character state of the `\b` look-around, as in `removeNums`. -/
def removeKwargsAux : Nat → Bool → List Char → List Char
  | _, _, [] => []
  | 0, _, s => s
  | fuel + 1, prev, c :: cs =>
    if !prev && isIdentStart c then
      if ((cs.dropWhile isWordChar).dropWhile isPySpace).headD ' ' = '=' then
        '=' :: removeKwargsAux fuel false
          (((cs.dropWhile isWordChar).dropWhile isPySpace).tail)
      else c :: removeKwargsAux fuel true cs
    else c :: removeKwargsAux fuel (isWordChar c) cs

def removeKwargs (prev : Bool) (s : List Char) : List Char :=
  removeKwargsAux s.length prev s

/-- Does the character before the current scan position block the negative
look-behind `(?<![.\w])` of the final token search? -/
def blocksTok (c : Char) : Bool := c = '.' || isWordChar c

/-- The token search `re.findall(r"(?<![.\w])([a-zA-Z_][a-zA-Z0-9_]*)\b",
cleaned)` of `_extract_variable_references`: maximal identifier runs whose
preceding character is neither a dot nor a word character.  `prevB` says
whether the previous character blocks the look-behind (false at the start of
the string). -/
def scanTokensAux : Nat → Bool → List Char → List (List Char)
  | _, _, [] => []
  | 0, _, _ => []
  | fuel + 1, prevB, c :: cs =>
    if !prevB && isIdentStart c then
      (c :: cs.takeWhile isWordChar) ::
        scanTokensAux fuel true (cs.dropWhile isWordChar)
    else scanTokensAux fuel (blocksTok c) cs

def scanTokens (prevB : Bool) (s : List Char) : List (List Char) :=
  scanTokensAux s.length prevB s

/-- The single-character tokens that survive the length filter of
`_extract_variable_references`. -/
def shortTokens : List (List Char) :=
  [['e'], ['x'], ['y'], ['z'], ['t'], ['s'], ['n']]

/-- The word operators skipped by `_extract_variable_references`. -/
def wordOps : List (List Char) :=
  [['e', 'q'], ['n', 'e'], ['l', 't'], ['g', 't'], ['l', 'e'], ['g', 'e']]

/-- Model of `_extract_variable_references` (source lines 1629-1671): string
literals, numeric literals, attribute accesses and keyword arguments are
removed in that order, then the word tokens of the rest are collected, the
short-token and word-operator filters applied, and the result treated as a
set (deduplicated). -/
def extract_variable_references (block : List Char) : List (List Char) :=
  let cleaned :=
    removeKwargs false (removeAttrs (removeNums false
      (subQuote dq (subQuote sq block))))
  ((scanTokens false cleaned).filter (fun t =>
      (decide (1 < t.length) || shortTokens.contains t) &&
      !wordOps.contains t)).dedup

def exprBlocksAux : Nat → List Char → List (List Char)
  | _, [] => []
  | 0, _ => []
  | fuel + 1, c :: cs =>
    if c = Char.ofNat 123 && cs.headD ' ' = Char.ofNat 123 then
      match (cs.drop 1).takeWhile (fun d => !(d = Char.ofNat 125)) with
      | [] => exprBlocksAux fuel cs
      | b :: body =>
        if [Char.ofNat 125, Char.ofNat 125].isPrefixOf
            ((cs.drop 1).dropWhile (fun d => !(d = Char.ofNat 125))) then
          (b :: body) ::
            exprBlocksAux fuel
              (((cs.drop 1).dropWhile (fun d => !(d = Char.ofNat 125))).drop 2)
        else exprBlocksAux fuel cs
    else exprBlocksAux fuel cs

/-- The expression blocks `re.findall(r"\{\{([^}]+)\}\}", value)`: capture
the non-empty brace-free body between `{{` and `}}`, scanning
non-overlapping matches from the left. -/
def exprBlocks (s : List Char) : List (List Char) := exprBlocksAux s.length s

def ctrlBlocksAux : Nat → List Char → List (List Char)
  | _, [] => []
  | 0, _ => []
  | fuel + 1, c :: cs =>
    if c = Char.ofNat 123 && cs.headD ' ' = '%' then
      match (cs.drop 1).takeWhile (fun d => !(d = '%')) with
      | [] => ctrlBlocksAux fuel cs
      | b :: body =>
        if ['%', Char.ofNat 125].isPrefixOf
            ((cs.drop 1).dropWhile (fun d => !(d = '%'))) then
          (b :: body) ::
            ctrlBlocksAux fuel
              (((cs.drop 1).dropWhile (fun d => !(d = '%'))).drop 2)
        else ctrlBlocksAux fuel cs
    else ctrlBlocksAux fuel cs

/-- The control blocks `re.findall(r"\{%([^%]+)%\}", value)`. -/
def ctrlBlocks (s : List Char) : List (List Char) := ctrlBlocksAux s.length s

/-- The `jinja_blocks` list of `_check_undefined_variable_references`
(source lines 1593-1594): expression blocks first, control blocks
appended. -/
def jinjaBlocks (value : List Char) : List (List Char) :=
  exprBlocks value ++ ctrlBlocks value

/-- Capture of `\{%\s*set\s+(\w+)\s*=` at the head of `s` (the name bound by
a local `{% set %}`), or `none`. -/
def setCaptureAt (s : List Char) : Option (List Char) := do
  let r1 ← matchPats
    [Pat.lit [Char.ofNat 123, '%'], Pat.ws0, Pat.lit ['s', 'e', 't'], Pat.ws1] s
  let name := r1.takeWhile isWordChar
  if name.isEmpty then none
  else
    let r2 := (r1.dropWhile isWordChar).dropWhile isPySpace
    if r2.headD ' ' = '=' then some name else none

/-- The local definitions `re.findall(r"\{%\s*set\s+(\w+)\s*=", value)` of
`_check_undefined_variable_references`.  A match of this pattern cannot
contain the start of another one, so collecting a capture at every position
agrees with `re.findall`. -/
def localSetVars (value : List Char) : List (List Char) :=
  (List.range value.length).filterMap (fun i => setCaptureAt (value.drop i))

/-- Capture of `\{%\s*for\s+(\w+)(?:\s*,\s*(\w+))?\s+in\s+` at the head of
`s`: the loop name and, for the tuple form, the second name.  The greedy
optional group is tried first, as the regex engine does. -/
def forCaptureAt (s : List Char) : Option (List Char × Option (List Char)) := do
  let r1 ← matchPats
    [Pat.lit [Char.ofNat 123, '%'], Pat.ws0, Pat.lit ['f', 'o', 'r'], Pat.ws1] s
  let name1 := r1.takeWhile isWordChar
  if name1.isEmpty then none
  else
    let r2 := r1.dropWhile isWordChar
    let withComma : Option (List Char) := do
      let r3 ← matchPats [Pat.ws0, Pat.lit [','], Pat.ws0] r2
      let name2 := r3.takeWhile isWordChar
      if name2.isEmpty then none
      else
        let r4 := r3.dropWhile isWordChar
        let _ ← matchPats [Pat.ws1, Pat.lit ['i', 'n'], Pat.ws1] r4
        some name2
    match withComma with
    | some name2 => some (name1, some name2)
    | none =>
      let _ ← matchPats [Pat.ws1, Pat.lit ['i', 'n'], Pat.ws1] r2
      some (name1, none)

/-- The loop variables bound by
`re.findall(r"\{%\s*for\s+(\w+)(?:\s*,\s*(\w+))?\s+in\s+", value)`, with the
second name of a tuple form added after the first, as the source's loop over
the match tuples does. -/
def forLoopVars (value : List Char) : List (List Char) :=
  ((List.range value.length).filterMap (fun i => forCaptureAt (value.drop i))).flatMap
    (fun m => m.1 :: m.2.toList)

/-- The function-call exemption `re.search(rf"\b{token}\s*\(", block)` of
`_check_undefined_variable_references` (source lines 1611-1615), for the
word-character tokens produced by `_extract_variable_references`. -/
def funcSearch (token block : List Char) : Bool :=
  (List.range block.length).any (fun i =>
    (decide (i = 0) || !isWordChar (block.getD (i - 1) ' ')) &&
    (matchPats [Pat.lit token, Pat.ws0, Pat.lit ['(']] (block.drop i)).isSome)

/-- The filter exemption `re.search(rf"\|\s*{token}\b", block)` of
`_check_undefined_variable_references` (source lines 1617-1621). -/
def filterSearch (token block : List Char) : Bool :=
  (List.range block.length).any (fun i =>
    match matchPats [Pat.lit ['|'], Pat.ws0, Pat.lit token] (block.drop i) with
    | some r => !isWordChar (r.headD ' ')
    | none => false)

/-- The `all_available` name set of `_check_undefined_variable_references`
(source lines 1578-1589): builtins, context variables, all declared
variables, local `{% set %}` names and loop variables. -/
def availNames (value : List Char) (context_vars defined_variables : List String) :
    List (List Char) :=
  JINJA2_BUILTINS.map String.data ++ context_vars.map String.data ++
  defined_variables.map String.data ++ localSetVars value ++ forLoopVars value

/-- The token loop of `_check_undefined_variable_references` for a single
Jinja block (source lines 1596-1627): an undefined-reference Error is a pair
of the enclosing variable's name and the unresolved token, the two values
the source's message interpolates. -/
def blockUndefinedErrors (var_name : String) (avail : List (List Char))
    (block : List Char) : List (String × List Char) :=
  (extract_variable_references block).filterMap (fun token =>
    if avail.contains token then none
    else if var_name.data.contains '.' then none
    else if funcSearch token block then none
    else if filterSearch token block then none
    else some (var_name, token))

/-- Model of `_check_undefined_variable_references` (source lines
1556-1627). -/
def check_undefined_variable_references (var_name : String) (value : List Char)
    (context_vars defined_variables : List String) : List (String × List Char) :=
  (jinjaBlocks value).flatMap
    (blockUndefinedErrors var_name (availNames value context_vars defined_variables))

/-! ### `_check_unsafe_math_operations` -/

/-- Python `str.strip`. -/
def pyStrip (s : List Char) : List Char :=
  ((s.dropWhile isPySpace).reverse.dropWhile isPySpace).reverse

/-- End-of-pattern `$`: the end of the string, or just before a final
newline. -/
def matchDollar (s : List Char) : Bool := s.isEmpty || s = [nl]

/-- The positive-literal test `re.match(r"^\d+\.?\d*$", arg)`. -/
def isNumericLiteral (s : List Char) : Bool :=
  let r1 := s.dropWhile isDigitChar
  !(s.takeWhile isDigitChar).isEmpty &&
  (matchDollar r1 ||
    (r1.headD ' ' = '.' && matchDollar ((r1.drop 1).dropWhile isDigitChar)))

/-- Leftmost identifier, `re.search(r"([a-zA-Z_][a-zA-Z0-9_]*)", s)`. -/
def firstIdent : List Char → Option (List Char)
  | [] => none
  | c :: cs =>
    if isIdentStart c then some (c :: cs.takeWhile isWordChar)
    else firstIdent cs

/-- One match of `rf"{fn}\s*\(\s*([^)]+)\)"` at the head of `s`: the captured
argument (the leading `\s*` is given back to the capture when the argument is
all whitespace, as the regex backtracking does) and the remainder after the
closing parenthesis. -/
def funcArgCaptureAt (fn s : List Char) : Option (List Char × List Char) :=
  if fn.isPrefixOf s then
    let r0 := (s.drop fn.length).dropWhile isPySpace
    if r0.headD ' ' = '(' then
      let run := (r0.drop 1).takeWhile (fun d => !(d = ')'))
      let rest := (r0.drop 1).dropWhile (fun d => !(d = ')'))
      if !run.isEmpty && rest.headD ' ' = ')' then
        let afterWs := run.dropWhile isPySpace
        some (if afterWs.isEmpty then run.drop (run.length - 1) else afterWs,
              rest.drop 1)
      else none
    else none
  else none

def funcArgFindallAux (fn : List Char) : Nat → List Char → List (List Char)
  | _, [] => []
  | 0, _ => []
  | fuel + 1, c :: cs =>
    match funcArgCaptureAt fn (c :: cs) with
    | some (arg, rest) => arg :: funcArgFindallAux fn fuel rest
    | none => funcArgFindallAux fn fuel cs

/-- The argument captures of `re.findall(rf"{fn}\s*\(\s*([^)]+)\)", value)`,
non-overlapping from the left. -/
def funcArgFindall (fn s : List Char) : List (List Char) :=
  funcArgFindallAux fn s.length s

/-- The `sqrt` warning of `_check_unsafe_math_operations`, carrying the
stripped argument and the extracted identifier; the modulo warning carrying
the right operand; the `asin`/`acos` warning carrying the function name, the
stripped argument and the extracted identifier. -/
inductive MathWarning where
  | unsafeSqrt (var_name : String) (arg v : List Char)
  | unsafeModulo (var_name : String) (v : List Char)
  | unsafeTrig (fn : List Char) (var_name : String) (arg v : List Char)
deriving DecidableEq, Repr

/-- The six guard patterns searched for the `sqrt` argument's identifier
(source lines 1703-1710). -/
def sqrtGuardPats (v : List Char) : List (List Pat) :=
  [[Pat.lit "max".data, Pat.ws0, Pat.lit "(".data, Pat.ws0, Pat.lit "0".data,
    Pat.ws0, Pat.lit ",".data, Pat.ws0, Pat.lit v],
   [Pat.lit "max".data, Pat.ws0, Pat.lit "(".data, Pat.ws0, Pat.lit v,
    Pat.ws0, Pat.lit ",".data, Pat.ws0, Pat.lit "0".data],
   [Pat.lit "abs".data, Pat.ws0, Pat.lit "(".data, Pat.ws0, Pat.lit v,
    Pat.ws0, Pat.lit ")".data],
   [Pat.lit v, Pat.ws0, Pat.lit ">=".data, Pat.ws0, Pat.lit "0".data],
   [Pat.lit v, Pat.ws0, Pat.lit ">".data, Pat.ws0, Pat.lit "0".data],
   [Pat.lit "if".data, Pat.ws1, Pat.lit v, Pat.ws0, Pat.lit ">=".data,
    Pat.ws0, Pat.lit "0".data]]

/-- The `sqrt` section of `_check_unsafe_math_operations` (source lines
1689-1718). -/
def sqrtWarnings (var_name : String) (value : List Char) : List MathWarning :=
  (funcArgFindall "sqrt".data value).filterMap (fun arg =>
    let argS := pyStrip arg
    if isNumericLiteral argS then none
    else
      match firstIdent argS with
      | none => none
      | some v =>
        if (sqrtGuardPats v).any (fun p => searchPats p value) then none
        else some (MathWarning.unsafeSqrt var_name argS v))

/-- One capture of `re.findall(r"%\s*\(?\s*([a-zA-Z_][a-zA-Z0-9_]*)", block)`
at the head of `s`.  A match of this pattern contains no `%` after its first
character, so collecting a capture at every position agrees with
`re.findall`. -/
def moduloCaptureAt (s : List Char) : Option (List Char) :=
  if s.headD ' ' = '%' then
    let r1 := (s.drop 1).dropWhile isPySpace
    let r2 := if r1.headD ' ' = '(' then (r1.drop 1).dropWhile isPySpace else r1
    if isIdentStart (r2.headD ' ') then some (r2.takeWhile isWordChar)
    else none
  else none

/-- The guard alternation `{v}\s*!=\s*0|{v}\s*>\s*0|{v}\s+is\s+number`
searched for a modulo right operand (source lines 1743-1747). -/
def moduloGuardPats (v : List Char) : List (List Pat) :=
  [[Pat.lit v, Pat.ws0, Pat.lit "!=".data, Pat.ws0, Pat.lit "0".data],
   [Pat.lit v, Pat.ws0, Pat.lit ">".data, Pat.ws0, Pat.lit "0".data],
   [Pat.lit v, Pat.ws1, Pat.lit "is".data, Pat.ws1, Pat.lit "number".data]]

/-- The modulo section of `_check_unsafe_math_operations` (source lines
1720-1752): only `{{ }}` expression blocks are scanned; mathematical
constants, builtins and variables with a non-zero default are skipped. -/
def moduloWarnings (var_name : String) (value : List Char)
    (nonzero_default_vars : List String) : List MathWarning :=
  (exprBlocks value).flatMap (fun block =>
    ((List.range block.length).filterMap
        (fun i => moduloCaptureAt (block.drop i))).filterMap (fun v =>
      if [['p', 'i'], ['e'], ['t', 'a', 'u']].contains v then none
      else if (JINJA2_BUILTINS.map String.data).contains v then none
      else if (nonzero_default_vars.map String.data).contains v then none
      else if (moduloGuardPats v).any (fun p => searchPats p value) then none
      else some (MathWarning.unsafeModulo var_name v)))

/-- The in-range-literal test of the `asin`/`acos` section:
`re.match(r"^-?[01]\.?\d*$", arg)` together with the check that the parsed
value lies in `[-1, 1]`. -/
def inRangeLit (s : List Char) : Bool :=
  let body := if s.headD ' ' = '-' then s.drop 1 else s
  let c0 := body.headD ' '
  let after := body.drop 1
  let rest := if after.headD ' ' = '.' then after.drop 1 else after
  (c0 = '0' || c0 = '1') && matchDollar (rest.dropWhile isDigitChar) &&
  (c0 = '0' || (rest.takeWhile isDigitChar).all (fun d => d = '0'))

/-- The clamping patterns searched for an `asin`/`acos` argument (source
lines 1772-1776). -/
def clampPats (v : List Char) : List (List Pat) :=
  [[Pat.lit "max".data, Pat.ws0, Pat.lit "(".data, Pat.ws0, Pat.lit "-1".data,
    Pat.ws0, Pat.lit ",".data, Pat.ws0, Pat.lit "min".data, Pat.ws0,
    Pat.lit "(".data, Pat.ws0, Pat.lit "1".data, Pat.ws0, Pat.lit ",".data,
    Pat.ws0, Pat.lit v],
   [Pat.lit "min".data, Pat.ws0, Pat.lit "(".data, Pat.ws0, Pat.lit "1".data,
    Pat.ws0, Pat.lit ",".data, Pat.ws0, Pat.lit "max".data, Pat.ws0,
    Pat.lit "(".data, Pat.ws0, Pat.lit "-1".data, Pat.ws0, Pat.lit ",".data,
    Pat.ws0, Pat.lit v],
   [Pat.lit "|".data, Pat.ws0, Pat.lit "clamp".data]]

/-- The `asin`/`acos` section of `_check_unsafe_math_operations` (source
lines 1754-1784). -/
def trigWarnings (var_name : String) (value : List Char) : List MathWarning :=
  ["asin".data, "acos".data].flatMap (fun fn =>
    (funcArgFindall fn value).filterMap (fun arg =>
      let argS := pyStrip arg
      if inRangeLit argS then none
      else
        match firstIdent argS with
        | none => none
        | some v =>
          if (clampPats v).any (fun p => searchPats p value) then none
          else some (MathWarning.unsafeTrig fn var_name argS v)))

/-- Model of `_check_unsafe_math_operations` (source lines 1673-1784): the
`sqrt`, modulo and `asin`/`acos` sections in source order. -/
def check_unsafe_math_operations (var_name : String) (value : List Char)
    (nonzero_default_vars : List String) : List MathWarning :=
  sqrtWarnings var_name value ++
  moduloWarnings var_name value nonzero_default_vars ++
  trigWarnings var_name value

/-! ### `_check_jinja2_delimiter_balance` -/

/-- Index of the first occurrence of `pat` in `s` (the position of
`re.search(pat, content).start()` for a literal pattern). -/
def findSub (pat s : List Char) : Option Nat :=
  ((List.range s.length).filter (fun i => pat.isPrefixOf (s.drop i))).head?

/-- Python `content.split("\n")`. -/
def splitLines (content : List Char) : List (List Char) :=
  content.splitOn nl

/-- The line-walk of `_check_jinja2_delimiter_balance` (source lines
2638-2645): accumulate the per-line `openTag` minus `closeTag` balance and
return the 1-based number of the first line where it goes negative. -/
def firstNegLine (openTag closeTag : List Char) : Int → Nat → List (List Char) → Option Nat
  | _, _, [] => none
  | bal, n, l :: ls =>
    let b := bal + (countSub openTag l : Int) - (countSub closeTag l : Int)
    if b < 0 then some n else firstNegLine openTag closeTag b (n + 1) ls

/-- The diagnostics of `_check_jinja2_delimiter_balance`: an unbalanced
delimiter pair (whose `line` is the first negative-balance line of the
message `Check around line N`, or `none` for the message
`Missing closing delimiter(s) at end of file`), or a triple-brace typo with
its line. -/
inductive DelimError where
  | unbalanced (openTag closeTag : List Char) (openCount closeCount : Nat)
      (line : Option Nat)
  | tripleOpen (line : Nat)
  | tripleClose (line : Nat)
deriving DecidableEq, Repr

/-- The opening expression delimiter. -/
def exprOpen : List Char := [Char.ofNat 123, Char.ofNat 123]

/-- The closing expression delimiter. -/
def exprClose : List Char := [Char.ofNat 125, Char.ofNat 125]

/-- The count check of `_check_jinja2_delimiter_balance` for one delimiter
pair (source lines 2633-2659). -/
def delimPairError (content : List Char) (pair : List Char × List Char) :
    Option DelimError :=
  let oc := countSub pair.1 content
  let cc := countSub pair.2 content
  if oc = cc then none
  else some (DelimError.unbalanced pair.1 pair.2 oc cc
    (firstNegLine pair.1 pair.2 0 1 (splitLines content)))

/-- The triple-brace typo checks of `_check_jinja2_delimiter_balance`
(source lines 2661-2679): the line of the first occurrence is the number of
newlines before it plus one. -/
def tripleBraceErrors (content : List Char) : List DelimError :=
  ((findSub [Char.ofNat 123, Char.ofNat 123, Char.ofNat 123] content).map
    (fun pos => DelimError.tripleOpen ((content.take pos).count nl + 1))).toList ++
  ((findSub [Char.ofNat 125, Char.ofNat 125, Char.ofNat 125] content).map
    (fun pos => DelimError.tripleClose ((content.take pos).count nl + 1))).toList

/-- Model of `_check_jinja2_delimiter_balance` (source lines 2612-2679): the
count checks for the three delimiter pairs of its `jinja_patterns` table in
source order, then the triple-brace checks.  The final call to
`_check_control_block_balance` reports on named keyword pairs such as
`if`/`endif` and never on the delimiter pairs themselves; it is outside this
model. -/
def check_jinja2_delimiter_balance (content : List Char) : List DelimError :=
  (delimPairError content (exprOpen, exprClose)).toList ++
  (delimPairError content ([Char.ofNat 123, '%'], ['%', Char.ofNat 125])).toList ++
  (delimPairError content ([Char.ofNat 123, '#'], ['#', Char.ofNat 125])).toList ++
  tripleBraceErrors content

/-- Is this diagnostic the unbalanced-count Error for the expression
delimiter pair? -/
def isExprUnbalanced : DelimError → Bool
  | DelimError.unbalanced o _ _ _ _ => o == exprOpen
  | _ => false

/-- The line a delimiter diagnostic names, if any. -/
def delimLine : DelimError → Option Nat
  | DelimError.unbalanced _ _ _ _ l => l
  | DelimError.tripleOpen l => some l
  | DelimError.tripleClose l => some l

/-! ### The `states(...) | round` section of `_check_type_mismatch_in_filters` -/

/-- The pattern `states\s*\([^)]+\)\s*\|\s*round` (source line 1857). -/
def statesRoundPat : List Pat :=
  [Pat.lit "states".data, Pat.ws0, Pat.lit "(".data,
   Pat.cls1 (fun d => !(d = ')')), Pat.lit ")".data, Pat.ws0,
   Pat.lit "|".data, Pat.ws0, Pat.lit "round".data]

/-- The pattern
`states\s*\([^)]+\)\s*\|\s*(?:float|int)\s*\([^)]*\)\s*\|\s*round`
(source line 1860). -/
def statesConvRoundPat : List Pat :=
  [Pat.lit "states".data, Pat.ws0, Pat.lit "(".data,
   Pat.cls1 (fun d => !(d = ')')), Pat.lit ")".data, Pat.ws0,
   Pat.lit "|".data, Pat.ws0, Pat.alt2 "float".data "int".data, Pat.ws0,
   Pat.lit "(".data, Pat.cls0 (fun d => !(d = ')')), Pat.lit ")".data,
   Pat.ws0, Pat.lit "|".data, Pat.ws0, Pat.lit "round".data]

/-- The warning of the `states(...) | round` section, carrying the enclosing
variable's name (the only data interpolated into the message). -/
inductive TypeWarning where
  | statesRound (var_name : String)
deriving DecidableEq, Repr

/-- Model of the `states(...) | round` section of
`_check_type_mismatch_in_filters` (source lines 1855-1867): warn when the
direct pattern occurs somewhere and the converted pattern occurs nowhere. -/
def states_round_check (var_name : String) (value : List Char) :
    List TypeWarning :=
  if searchPats statesRoundPat value then
    if !searchPats statesConvRoundPat value then
      [TypeWarning.statesRound var_name]
    else []
  else []

/-! ### The variables-section pass of `_validate_variables` -/

/-- One match of the non-zero-default pattern
`\|\s*(?:float|int)\s*\(\s*(\d+\.?\d*)` at the head of `s`, returning the
captured literal. -/
def posDefaultCaptureAt (s : List Char) : Option (List Char) := do
  let r ← matchPats [Pat.lit "|".data, Pat.ws0,
    Pat.alt2 "float".data "int".data, Pat.ws0, Pat.lit "(".data, Pat.ws0] s
  let ds := r.takeWhile isDigitChar
  if ds.isEmpty then none
  else
    let r2 := r.dropWhile isDigitChar
    if r2.headD ' ' = '.' then
      some (ds ++ '.' :: (r2.drop 1).takeWhile isDigitChar)
    else some ds

/-- The non-zero-default test of the pre-pass of `_validate_variables`
(source lines 859-872): the leftmost match's captured literal parses to a
positive value, which for `\d+\.?\d*` means some digit is non-zero. -/
def posDefault (value : List Char) : Bool :=
  match ((List.range value.length).filterMap
      (fun i => posDefaultCaptureAt (value.drop i))).head? with
  | some cap => cap.any (fun d => isDigitChar d && !(d = '0'))
  | none => false

/-- The `nonzero_default_vars` table built by the pre-pass. -/
def nonzeroDefaults (vars : List (String × List Char)) : List String :=
  vars.filterMap (fun nv => if posDefault nv.2 then some nv.1 else none)

/-- An entry of the validator's error list produced by the embedded checks
of the variables loop: a forward-reference Error or an undefined-reference
Error. -/
inductive VarError where
  | fwdRef (v u : String)
  | undefRef (v : String) (t : List Char)
deriving DecidableEq, Repr

/-- An entry of the validator's warning list produced by the embedded
checks: an unsafe-math Warning or a type-mismatch Warning. -/
inductive VarWarning where
  | math (w : MathWarning)
  | typ (w : TypeWarning)
deriving DecidableEq, Repr

/-- The error appends of the `_validate_variables` loop (source lines
878-913) for the two embedded error checks, in source order per variable,
with `defined_vars` growing after each variable and `var_order` holding all
declared names. -/
def varErrors (var_order : List String) :
    List String → List (String × List Char) → List VarError
  | _, [] => []
  | so_far, (n, v) :: rest =>
    (check_variable_ordering n v so_far var_order).map
      (fun e => VarError.fwdRef e.fromVar e.toVar) ++
    (check_undefined_variable_references n v so_far var_order).map
      (fun e => VarError.undefRef e.1 e.2) ++
    varErrors var_order (so_far ++ [n]) rest

/-- The warning appends of the same loop for the two embedded warning
checks. -/
def varWarnings (nz : List String) : List (String × List Char) → List VarWarning
  | [] => []
  | (n, v) :: rest =>
    (check_unsafe_math_operations n v nz).map VarWarning.math ++
    (states_round_check n v).map VarWarning.typ ++
    varWarnings nz rest

/-- The variables-section analysis pass: the slice of `_validate_variables`
(source lines 841-913) covering the checks embedded above.  Everything the
source loop reads — declaration order, the names defined so far, the full
name set and the non-zero-default pre-pass — is recomputed from the input
mapping alone. -/
def analyzeVariables (vars : List (String × List Char)) :
    List VarError × List VarWarning :=
  (varErrors (vars.map Prod.fst) [] vars,
   varWarnings (nonzeroDefaults vars) vars)

/-- The analysis pass as a relation between a document's ordered variables
mapping and the diagnostics of one validator run started from the freshly
initialised state of `BlueprintValidator.__init__` (empty diagnostic lists,
empty per-document tables). -/
inductive AnalyzeRel :
    List (String × List Char) → List VarError × List VarWarning → Prop
  | run (vars : List (String × List Char)) :
      AnalyzeRel vars (analyzeVariables vars)

/-! ### Specification-side definitions for the string-literal claim -/

/-- Modelled from the spec (§4.1, Scanner): walk the block toggling an
inside-string state on single- or double-quote characters, a quote of the
other kind being inert inside an open literal.  The result marks each
character belonging to a quoted string literal, delimiters included. -/
def specLiteralMask : Option Char → List Char → List Bool
  | _, [] => []
  | none, c :: cs =>
    if c = sq || c = dq then true :: specLiteralMask (some c) cs
    else false :: specLiteralMask none cs
  | some q, c :: cs =>
    if c = q then true :: specLiteralMask none cs
    else true :: specLiteralMask (some q) cs

/-- Modelled from the spec: every occurrence of `t` in `block` lies within
the characters the spec's scanner marks as string-literal text. -/
def occursOnlyInLiterals (t block : List Char) : Bool :=
  (List.range block.length).all (fun i =>
    !(t.isPrefixOf (block.drop i)) ||
    (((specLiteralMask none block).drop i).take t.length).all (fun b => b))

/-- A quote-structured segment of a Jinja block: plain text holding no
quote characters, a terminated single-quoted literal, or a terminated
double-quoted literal. -/
inductive Seg where
  | plain (s : List Char)
  | slit (s : List Char)
  | dlit (s : List Char)

/-- The text of a segment. -/
def Seg.render : Seg → List Char
  | Seg.plain s => s
  | Seg.slit s => sq :: s ++ [sq]
  | Seg.dlit s => dq :: s ++ [dq]

/-- Well-formedness of a segment: plain text holds no quotes, a
single-quoted literal's content holds no single quote, and a double-quoted
literal's content holds no quote of either kind (the claim's amendment
excludes mixed quoting). -/
@[reducible] def Seg.WF : Seg → Prop
  | Seg.plain s => sq ∉ s ∧ dq ∉ s
  | Seg.slit s => sq ∉ s
  | Seg.dlit s => sq ∉ s ∧ dq ∉ s

instance Seg.WF.decidable : (sg : Seg) → Decidable sg.WF
  | Seg.plain s => inferInstanceAs (Decidable (sq ∉ s ∧ dq ∉ s))
  | Seg.slit s => inferInstanceAs (Decidable (sq ∉ s))
  | Seg.dlit s => inferInstanceAs (Decidable (sq ∉ s ∧ dq ∉ s))

/-- The text of a quote-structured block. -/
def renderSegs (l : List Seg) : List Char := (l.map Seg.render).flatten

/-- The block text after the single-quoted literals are removed (the state
between the two quote substitutions of `_extract_variable_references`). -/
def renderNoSlits (l : List Seg) : List Char :=
  (l.map (fun sg => match sg with
    | Seg.plain s => s
    | Seg.slit _ => []
    | Seg.dlit s => dq :: s ++ [dq])).flatten

/-- The block text with its string literals removed. -/
def strippedSegs (l : List Seg) : List Char :=
  (l.map (fun sg => match sg with | Seg.plain s => s | _ => [])).flatten

/-- An identifier shape: a non-empty string of word characters. -/
@[reducible] def wordOnly (t : List Char) : Prop := t ≠ [] ∧ ∀ c ∈ t, isWordChar c = true

/-! ## Theorems -/

theorem suffix_to_inf {l1 l2 : List Char} (h : l1 <:+ l2) : l1 <:+: l2 :=
  h.isInfix

theorem prefix_to_inf {l1 l2 : List Char} (h : l1 <+: l2) : l1 <:+: l2 :=
  h.isInfix


/-- C9: for every successfully loaded document the verdict of
`_report_results` is pass exactly when the collected error list is empty, and
the verdict does not depend on the warnings at all. -/
theorem c9_verdict_iff_no_errors :
    ∀ (errors warnings warnings2 : List String),
      (report_results errors warnings = true ↔ errors = []) ∧
      report_results errors warnings = report_results errors warnings2 := by
  intro errors warnings warnings2
  constructor
  · cases errors with
    | nil => simp [report_results]
    | cons e es =>
      simp only [report_results, List.isEmpty_cons, Bool.false_and, if_neg]
      simp
  · cases errors with
    | nil => simp [report_results]
    | cons e es => simp [report_results]

/-! ### Claim C1: forward references -/

theorem refInJinja_positions_not_empty {value v : List Char}
    (h : refInJinjaBlock value v = true) :
    (wbMatchPositions v value).isEmpty = false := by
  unfold refInJinjaBlock at h
  cases hl : wbMatchPositions v value with
  | nil => rw [hl] at h; simp at h
  | cons a l => simp

theorem orderingEntry_eq_some {var_name : String} {value : List Char}
    {dv : List String} {w : String} {e : OrderingError}
    (h : orderingEntry var_name value dv w = some e) :
    e = ⟨var_name, w⟩ := by
  unfold orderingEntry at h
  split_ifs at h
  exact (Option.some.inj h).symm

theorem orderingEntry_pos {var_name : String} {value : List Char}
    {dv : List String} {U : String}
    (hne : U ≠ var_name) (hnb : U ∉ orderingBuiltins)
    (href : refInJinjaBlock value U.data = true) (hfwd : U ∉ dv) :
    orderingEntry var_name value dv U = some ⟨var_name, U⟩ := by
  unfold orderingEntry
  rw [if_neg hne, if_neg hnb]
  rw [refInJinja_positions_not_empty href]
  simp [href, hfwd]

theorem check_variable_ordering_mem {var_name : String} {value : List Char}
    {dv vo : List String} {e : OrderingError}
    (h : e ∈ check_variable_ordering var_name value dv vo) :
    e.fromVar = var_name ∧ e.toVar ∈ vo := by
  unfold check_variable_ordering at h
  rw [List.mem_filterMap] at h
  obtain ⟨w, hw, heq⟩ := h
  rw [orderingEntry_eq_some heq]
  exact ⟨rfl, hw⟩

theorem check_variable_ordering_count_zero {var_name U : String}
    {value : List Char} {dv vo : List String} (hU : U ∉ vo) :
    (check_variable_ordering var_name value dv vo).count ⟨var_name, U⟩ = 0 := by
  rw [List.count_eq_zero]
  intro hmem
  exact hU (check_variable_ordering_mem hmem).2

theorem check_variable_ordering_count_one {var_name U : String}
    {value : List Char} {dv : List String} {vo : List String}
    (hnodup : vo.Nodup) (hU : U ∈ vo) (hne : U ≠ var_name)
    (hnb : U ∉ orderingBuiltins) (href : refInJinjaBlock value U.data = true)
    (hfwd : U ∉ dv) :
    (check_variable_ordering var_name value dv vo).count ⟨var_name, U⟩ = 1 := by
  induction vo with
  | nil => cases hU
  | cons w ws ih =>
    unfold check_variable_ordering at ih ⊢
    rw [List.filterMap_cons]
    by_cases hwU : w = U
    · subst hwU
      rw [orderingEntry_pos hne hnb href hfwd]
      rw [List.count_cons_self]
      have hz : (ws.filterMap (orderingEntry var_name value dv)).count
          ⟨var_name, w⟩ = 0 := by
        rw [List.count_eq_zero]
        intro hmem
        rw [List.mem_filterMap] at hmem
        obtain ⟨u, hu, heq⟩ := hmem
        have := orderingEntry_eq_some heq
        have hwu : w = u := congrArg OrderingError.toVar this
        rw [hwu] at hnodup
        exact (List.nodup_cons.mp hnodup).1 hu
      rw [hz]
    · have hU2 : U ∈ ws := by
        cases hU with
        | head => exact absurd rfl hwU
        | tail _ h2 => exact h2
      have ih2 := ih (List.nodup_cons.mp hnodup).2 hU2
      cases hfw : orderingEntry var_name value dv w with
      | none => exact ih2
      | some b =>
        have hb := orderingEntry_eq_some hfw
        have hbne : b ≠ ⟨var_name, U⟩ := by
          rw [hb]
          intro hcon
          exact hwU (congrArg OrderingError.toVar hcon)
        rw [List.count_cons_of_ne (fun hcon => hbne hcon.symm) ]
        exact ih2

theorem count_fwdRef_in_undef_map (V U : String)
    (l : List (String × List Char)) :
    (l.map (fun e => VarError.undefRef e.1 e.2)).count (VarError.fwdRef V U)
      = 0 := by
  rw [List.count_eq_zero]
  intro hmem
  rw [List.mem_map] at hmem
  obtain ⟨a, _, heq⟩ := hmem
  cases heq

theorem count_fwdRef_in_ord_map_ne {V U n : String} {value : List Char}
    {dv vo : List String} (hn : n ≠ V) :
    ((check_variable_ordering n value dv vo).map
      (fun e => VarError.fwdRef e.fromVar e.toVar)).count (VarError.fwdRef V U)
      = 0 := by
  rw [List.count_eq_zero]
  intro hmem
  rw [List.mem_map] at hmem
  obtain ⟨a, ha, heq⟩ := hmem
  have h1 := (check_variable_ordering_mem ha).1
  rw [h1] at heq
  cases heq
  exact hn rfl

theorem varErrors_count_fwdRef_zero (vo : List String) (V U : String)
    (vars : List (String × List Char)) (so_far : List String)
    (hV : V ∉ vars.map Prod.fst) :
    (varErrors vo so_far vars).count (VarError.fwdRef V U) = 0 := by
  induction vars generalizing so_far with
  | nil => rfl
  | cons nv rest ih =>
    obtain ⟨n, v⟩ := nv
    have hn : n ≠ V := by
      intro hcon
      exact hV (by simp [hcon])
    have hV2 : V ∉ rest.map Prod.fst := by
      intro hcon
      exact hV (by simp [hcon])
    unfold varErrors
    rw [List.count_append, List.count_append]
    rw [count_fwdRef_in_ord_map_ne hn, count_fwdRef_in_undef_map,
      ih (so_far ++ [n]) hV2]

theorem fwdRef_injective :
    Function.Injective (fun e : OrderingError =>
      VarError.fwdRef e.fromVar e.toVar) := by
  intro a b h
  cases a
  cases b
  simp only [VarError.fwdRef.injEq] at h
  simp [h.1, h.2]

/-- C1 (amended): if a declared variable `V` references a declared variable
`U` inside a Jinja block (per the scan of `_check_variable_ordering`) and
`U` is declared strictly later than `V`, then — provided `U` is not itself
one of the builtin names that the check skips — the validator appends
exactly one forward-reference Error naming the pair `(V, U)`. -/
theorem c1_forward_reference_error_unique
    (pre post : List (String × List Char)) (V U : String) (vval : List Char)
    (hnodup : ((pre ++ (V, vval) :: post).map Prod.fst).Nodup)
    (hU : U ∈ post.map Prod.fst)
    (hnb : U ∉ orderingBuiltins)
    (href : refInJinjaBlock vval U.data = true) :
    (analyzeVariables (pre ++ (V, vval) :: post)).1.count
      (VarError.fwdRef V U) = 1 := by
  unfold analyzeVariables
  have hsplit : (pre ++ (V, vval) :: post).map Prod.fst
      = pre.map Prod.fst ++ V :: post.map Prod.fst := by
    simp
  set vo := (pre ++ (V, vval) :: post).map Prod.fst with hvo
  have hnodup2 : (pre.map Prod.fst ++ V :: post.map Prod.fst).Nodup := by
    rw [← hsplit]; exact hnodup
  have hdisj := (List.nodup_append.mp hnodup2).2.2
  have hVpost : V ∉ post.map Prod.fst :=
    (List.nodup_cons.mp (List.nodup_append.mp hnodup2).2.1).1
  have hUV : U ≠ V := fun hcon => hVpost (hcon ▸ hU)
  have hUvo : U ∈ vo := by
    show U ∈ vo
    rw [hsplit]
    exact List.mem_append_right _ (List.mem_cons_of_mem _ hU)
  have hvoNodup : vo.Nodup := hnodup
  have hpre : ∀ n ∈ pre.map Prod.fst, n ≠ V ∧ n ≠ U := by
    intro n hn
    constructor
    · intro hcon
      exact (hdisj hn) (hcon ▸ List.mem_cons_self _ _)
    · intro hcon
      exact (hdisj hn) (hcon ▸ List.mem_cons_of_mem _ hU)
  have main : ∀ (pre2 : List (String × List Char)) (so_far : List String),
      (∀ n ∈ pre2.map Prod.fst, n ≠ V ∧ n ≠ U) → U ∉ so_far →
      (varErrors vo so_far (pre2 ++ (V, vval) :: post)).count
        (VarError.fwdRef V U) = 1 := by
    intro pre2
    induction pre2 with
    | nil =>
      intro so_far _ hso
      rw [List.nil_append]
      unfold varErrors
      rw [List.count_append, List.count_append]
      rw [count_fwdRef_in_undef_map]
      rw [varErrors_count_fwdRef_zero vo V U post (so_far ++ [V]) hVpost]
      have h1 : ((check_variable_ordering V vval so_far vo).map
          (fun e => VarError.fwdRef e.fromVar e.toVar)).count
            (VarError.fwdRef V U) = 1 := by
        have := List.count_map_of_injective
          (check_variable_ordering V vval so_far vo)
          (fun e : OrderingError => VarError.fwdRef e.fromVar e.toVar)
          fwdRef_injective (⟨V, U⟩ : OrderingError)
        rw [this]
        exact check_variable_ordering_count_one hvoNodup hUvo hUV hnb href hso
      rw [h1]
    | cons nv rest ih =>
      intro so_far hpre2 hso
      obtain ⟨n, v⟩ := nv
      have hn := hpre2 n (by simp)
      have hrest : ∀ m ∈ rest.map Prod.fst, m ≠ V ∧ m ≠ U := by
        intro m hm
        exact hpre2 m (by simp [hm])
      rw [List.cons_append]
      unfold varErrors
      rw [List.count_append, List.count_append]
      rw [count_fwdRef_in_ord_map_ne hn.1, count_fwdRef_in_undef_map]
      have hso2 : U ∉ so_far ++ [n] := by
        intro hcon
        rcases List.mem_append.mp hcon with h | h
        · exact hso h
        · rcases List.mem_singleton.mp h with h2
          exact hn.2 h2.symm
      rw [ih (so_far ++ [n]) hrest hso2]
  exact main pre [] hpre (by simp)

/-- C1 witness: the spec scenario `{a: "{{ b | float(0) }}", b: "{{ 1 }}"}`
produces exactly one forward-reference Error naming `a` and `b`. -/
theorem c1_forward_reference_error_unique_witness :
    (analyzeVariables
      [("a", ("\x7b\x7b b | float(0) \x7d\x7d").data),
       ("b", ("\x7b\x7b 1 \x7d\x7d").data)]).1.count
      (VarError.fwdRef "a" "b") = 1 :=
  c1_forward_reference_error_unique [] [("b", ("\x7b\x7b 1 \x7d\x7d").data)]
    "a" "b" ("\x7b\x7b b | float(0) \x7d\x7d").data
    (by decide) (by decide) (by decide) (by decide)

/-- C1 counterexample: the claim as stated fails when the later variable is
named like a builtin.  Variable `a` references the later declared variable
`min` inside a Jinja block, yet the validator appends no forward-reference
Error, because `_check_variable_ordering` skips names in its builtin set. -/
theorem c1_counterexample :
    refInJinjaBlock ("\x7b\x7b min \x7d\x7d").data ("min".data) = true ∧
    ("min" ∈ ["a", "min"].drop 1) ∧
    (analyzeVariables
      [("a", ("\x7b\x7b min \x7d\x7d").data),
       ("min", ("\x7b\x7b 1 \x7d\x7d").data)]).1.count
      (VarError.fwdRef "a" "min") = 0 := by
  refine ⟨by decide, by decide, ?_⟩
  decide

/-! ### Claim C3: the `sqrt(max(0, x))` scenario -/

/-- C3: the code contradicts the spec scenario.  On the template
`{{ sqrt(max(0, x)) }}` the numeric-safety check emits one `sqrt` Warning:
the leftmost-identifier extraction takes `max` itself as the variable to be
guarded and then finds no guard for it, although the `max(0, x)` wrap is
exactly the guard the check's own message recommends. -/
theorem c3_sqrt_guarded_scenario_warns :
    check_unsafe_math_operations "calc"
        ("\x7b\x7b sqrt(max(0, x)) \x7d\x7d").data []
      = [MathWarning.unsafeSqrt "calc" ("max(0, x").data ("max").data] := by
  decide

/-! ### Claim C4: expression-delimiter balance -/

theorem filter_isExpr_tripleBraceErrors (content : List Char) :
    (tripleBraceErrors content).filter isExprUnbalanced = [] := by
  unfold tripleBraceErrors
  cases findSub [Char.ofNat 123, Char.ofNat 123, Char.ofNat 123] content <;>
    cases findSub [Char.ofNat 125, Char.ofNat 125, Char.ofNat 125] content <;>
      simp [isExprUnbalanced]

/-- C4 (amended): whenever the `{{` and `}}` counts of a document differ,
the delimiter-balance check emits exactly one Error for the expression
pair, carrying both counts; it names the first line on which the running
open-minus-close balance goes negative when such a line exists, and
otherwise reports the imbalance as missing closing delimiters at the end of
the file, naming no line. -/
theorem c4_expression_delimiter_imbalance (content : List Char)
    (h : countSub exprOpen content ≠ countSub exprClose content) :
    (check_jinja2_delimiter_balance content).filter isExprUnbalanced
      = [DelimError.unbalanced exprOpen exprClose (countSub exprOpen content)
          (countSub exprClose content)
          (firstNegLine exprOpen exprClose 0 1 (splitLines content))] := by
  unfold check_jinja2_delimiter_balance
  rw [List.filter_append, List.filter_append, List.filter_append,
    filter_isExpr_tripleBraceErrors]
  have hexpr : delimPairError content (exprOpen, exprClose)
      = some (DelimError.unbalanced exprOpen exprClose
          (countSub exprOpen content) (countSub exprClose content)
          (firstNegLine exprOpen exprClose 0 1 (splitLines content))) := by
    unfold delimPairError
    rw [if_neg h]
  rw [hexpr]
  have hctrl : ((delimPairError content
      ([Char.ofNat 123, '%'], ['%', Char.ofNat 125])).toList).filter
        isExprUnbalanced = [] := by
    unfold delimPairError
    dsimp only
    split_ifs <;> simp [isExprUnbalanced, exprOpen]
  have hcom : ((delimPairError content
      ([Char.ofNat 123, '#'], ['#', Char.ofNat 125])).toList).filter
        isExprUnbalanced = [] := by
    unfold delimPairError
    dsimp only
    split_ifs <;> simp [isExprUnbalanced, exprOpen]
  rw [hctrl, hcom]
  simp [isExprUnbalanced]

/-- C4 witness: a document with an early unmatched closer; the single
expression-pair Error names line 1, where the running balance first goes
negative. -/
theorem c4_expression_delimiter_imbalance_witness :
    countSub exprOpen ("\x7d\x7d\n\x7b\x7b\n\x7b\x7b").data ≠
      countSub exprClose ("\x7d\x7d\n\x7b\x7b\n\x7b\x7b").data ∧
    (check_jinja2_delimiter_balance
        ("\x7d\x7d\n\x7b\x7b\n\x7b\x7b").data).filter isExprUnbalanced
      = [DelimError.unbalanced exprOpen exprClose 2 1 (some 1)] := by
  refine ⟨by decide, ?_⟩
  rw [c4_expression_delimiter_imbalance _ (by decide)]
  decide

/-- C4 counterexample: on a document where `{{` occurs three times, `}}`
twice, and the running balance never goes negative, the unmatched trailing
opener sits on line 3, yet the emitted Error names no line at all — the
code reports `Missing closing delimiter(s) at end of file` — so the claim
that the Error identifies the best-guess line of the unmatched trailing
opener fails. -/
theorem c4_counterexample :
    (check_jinja2_delimiter_balance
        ("a \x7b\x7b x \x7d\x7d\n\x7b\x7b y \x7d\x7d\nb \x7b\x7b z\n").data).filter
        isExprUnbalanced
      = [DelimError.unbalanced exprOpen exprClose 3 2 none] ∧
    ((check_jinja2_delimiter_balance
        ("a \x7b\x7b x \x7d\x7d\n\x7b\x7b y \x7d\x7d\nb \x7b\x7b z\n").data).filter
        isExprUnbalanced).all (fun e => (delimLine e).isNone) = true := by
  exact ⟨by decide, by decide⟩

/-! ### Claim C5: `states(...) | round` -/

/-- C5 (amended): a template containing the direct pattern
`states(...) | round` receives exactly one Warning recommending a
conversion filter before `round`, provided the template does not also
contain the converted pattern `states(...) | float/int(...) | round`
somewhere (its presence anywhere suppresses the warning). -/
theorem c5_states_round_warning (var_name : String) (value : List Char)
    (h1 : searchPats statesRoundPat value = true)
    (h2 : searchPats statesConvRoundPat value = false) :
    states_round_check var_name value = [TypeWarning.statesRound var_name] := by
  unfold states_round_check
  rw [h1, h2]
  simp

/-- C5 witness: the spec scenario `{{ states("sensor.x") | round }}` yields
exactly one conversion Warning. -/
theorem c5_states_round_warning_witness :
    searchPats statesRoundPat
        ("\x7b\x7b states(\x22sensor.x\x22) | round \x7d\x7d").data = true ∧
    searchPats statesConvRoundPat
        ("\x7b\x7b states(\x22sensor.x\x22) | round \x7d\x7d").data = false ∧
    states_round_check "t"
        ("\x7b\x7b states(\x22sensor.x\x22) | round \x7d\x7d").data
      = [TypeWarning.statesRound "t"] :=
  ⟨by decide, by decide,
   c5_states_round_warning "t" _ (by decide) (by decide)⟩

/-- C5 counterexample: the claim as stated fails when another occurrence
carries a conversion.  The template
`{{ states("a") | float(0) | round }} {{ states("b") | round }}` contains
`states("b") | round` with no conversion filter interposed — the direct
pattern matches — yet the check emits no Warning, because the converted
occurrence elsewhere suppresses it. -/
theorem c5_counterexample :
    searchPats statesRoundPat
        ("\x7b\x7b states(\x22a\x22) | float(0) | round \x7d\x7d \x7b\x7b states(\x22b\x22) | round \x7d\x7d").data
      = true ∧
    states_round_check "t"
        ("\x7b\x7b states(\x22a\x22) | float(0) | round \x7d\x7d \x7b\x7b states(\x22b\x22) | round \x7d\x7d").data
      = [] := by
  exact ⟨by decide, by decide⟩

/-! ### Claims C6, C7, C10: exemptions of the undefined-reference check -/

theorem blockUndefinedErrors_mem {var_name : String} {avail : List (List Char)}
    {block : List Char} {e : String × List Char}
    (h : e ∈ blockUndefinedErrors var_name avail block) :
    e.1 = var_name ∧ e.2 ∈ extract_variable_references block ∧
    avail.contains e.2 = false ∧ funcSearch e.2 block = false ∧
    filterSearch e.2 block = false := by
  unfold blockUndefinedErrors at h
  rw [List.mem_filterMap] at h
  obtain ⟨t, ht, heq⟩ := h
  split_ifs at heq with h1 h2 h3 h4
  have he : e = (var_name, t) := (Option.some.inj heq).symm
  subst he
  refine ⟨rfl, ht, ?_, ?_, ?_⟩
  · exact Bool.not_eq_true _ ▸ Bool.of_not_eq_true h1
  · exact Bool.not_eq_true _ ▸ Bool.of_not_eq_true h3
  · exact Bool.not_eq_true _ ▸ Bool.of_not_eq_true h4

/-- C6: a name bound by an iteration construct `{% for x in ... %}` (either
the plain or the tuple form, as recognised by the source's regex) is added
to the available names for the whole template, so no undefined-reference
Error naming it is ever emitted for that template. -/
theorem c6_for_loop_variable_resolvable
    (var_name : String) (value : List Char) (context defined : List String)
    (x : List Char) (hx : x ∈ forLoopVars value) :
    ∀ e ∈ check_undefined_variable_references var_name value context defined,
      e.2 ≠ x := by
  intro e he hcon
  unfold check_undefined_variable_references at he
  rw [List.mem_flatMap] at he
  obtain ⟨b, _, hmem⟩ := he
  have hc := (blockUndefinedErrors_mem hmem).2.2.1
  rw [hcon] at hc
  have hmem2 : x ∈ availNames value context defined := by
    unfold availNames
    exact List.mem_append_right _ hx
  unfold List.contains at hc
  rw [List.elem_eq_true_of_mem hmem2] at hc
  cases hc

/-- C6 witness: in `{% for item2 in xs %}{{ item2 + zzz }}{% endfor %}` the
loop variable `item2` receives no undefined-reference Error (while the
template does produce Errors, for `zzz` and `xs`). -/
theorem c6_for_loop_variable_resolvable_witness :
    ("item2".data ∈ forLoopVars
      ("\x7b% for item2 in xs %\x7d\x7b\x7b item2 + zzz \x7d\x7d\x7b% endfor %\x7d").data) ∧
    (∀ e ∈ check_undefined_variable_references "v"
        ("\x7b% for item2 in xs %\x7d\x7b\x7b item2 + zzz \x7d\x7d\x7b% endfor %\x7d").data
        [] [],
      e.2 ≠ "item2".data) :=
  ⟨by decide,
   c6_for_loop_variable_resolvable "v" _ [] [] _ (by decide)⟩

/-- C7: a token some occurrence of which is followed (up to whitespace) by
an opening parenthesis in a Jinja block is treated as a function invocation
there and never produces an undefined-reference Error from that block,
whether or not it is declared or builtin. -/
theorem c7_function_call_exempt (var_name : String) (avail : List (List Char))
    (block t : List Char) (h : funcSearch t block = true) :
    ∀ e ∈ blockUndefinedErrors var_name avail block, e.2 ≠ t := by
  intro e he hcon
  have h4 := (blockUndefinedErrors_mem he).2.2.2.1
  rw [hcon, h] at h4
  cases h4

/-- C7 witness: `myfunc` is not declared, not builtin (the available-name
list is empty), yet `myfunc(3)` produces no Error. -/
theorem c7_function_call_exempt_witness :
    funcSearch "myfunc".data (" myfunc(3) ").data = true ∧
    (∀ e ∈ blockUndefinedErrors "v" [] (" myfunc(3) ").data,
      e.2 ≠ "myfunc".data) :=
  ⟨by decide, c7_function_call_exempt "v" [] _ _ (by decide)⟩

/-- C10: a token preceded (up to whitespace) by a filter pipe somewhere in a
Jinja block is treated as a filter and never produces an undefined-reference
Error from that block, whether or not it is declared or builtin. -/
theorem c10_filter_position_exempt (var_name : String) (avail : List (List Char))
    (block t : List Char) (h : filterSearch t block = true) :
    ∀ e ∈ blockUndefinedErrors var_name avail block, e.2 ≠ t := by
  intro e he hcon
  have h5 := (blockUndefinedErrors_mem he).2.2.2.2
  rw [hcon, h] at h5
  cases h5

/-- C10 witness: `myfilter` is not declared, not builtin, yet
`val | myfilter` produces no Error for it (the Error produced by that block
is for `val`). -/
theorem c10_filter_position_exempt_witness :
    filterSearch "myfilter".data (" val | myfilter ").data = true ∧
    (∀ e ∈ blockUndefinedErrors "v" [] (" val | myfilter ").data,
      e.2 ≠ "myfilter".data) :=
  ⟨by decide, c10_filter_position_exempt "v" [] _ _ (by decide)⟩

/-! ### Claim C8: determinism of the analysis pass -/

/-- C8: the analysis pass is a deterministic function of the document's
ordered variables mapping.  Any two runs related to the same input — each a
validator pass started from the freshly initialised
`BlueprintValidator.__init__` state — produce identical ordered error and
warning lists; nothing outside the input mapping influences the
diagnostics. -/
theorem c8_deterministic (vars : List (String × List Char))
    (d1 d2 : List VarError × List VarWarning)
    (h1 : AnalyzeRel vars d1) (h2 : AnalyzeRel vars d2) : d1 = d2 := by
  cases h1
  cases h2
  rfl

/-- C8 witness: two fresh runs on the spec's two-variable scenario agree. -/
theorem c8_deterministic_witness :
    AnalyzeRel
      [("a", ("\x7b\x7b b | float(0) \x7d\x7d").data),
       ("b", ("\x7b\x7b 1 \x7d\x7d").data)]
      (analyzeVariables
        [("a", ("\x7b\x7b b | float(0) \x7d\x7d").data),
         ("b", ("\x7b\x7b 1 \x7d\x7d").data)]) ∧
    analyzeVariables
      [("a", ("\x7b\x7b b | float(0) \x7d\x7d").data),
       ("b", ("\x7b\x7b 1 \x7d\x7d").data)]
      = analyzeVariables
        [("a", ("\x7b\x7b b | float(0) \x7d\x7d").data),
         ("b", ("\x7b\x7b 1 \x7d\x7d").data)] :=
  ⟨AnalyzeRel.run _,
   c8_deterministic _ _ _ (AnalyzeRel.run _) (AnalyzeRel.run _)⟩

/-! ### Claim C2: identifiers inside string literals -/

theorem dropWhile_head_not (p : Char → Bool) (l : List Char) (d : Char) :
    l.dropWhile p = [] ∨ p ((l.dropWhile p).headD d) = false := by
  induction l with
  | nil => exact Or.inl rfl
  | cons c cs ih =>
    by_cases h : p c = true
    · rw [List.dropWhile_cons_of_pos h]
      exact ih
    · rw [List.dropWhile_cons_of_neg h]
      right
      rw [List.headD_cons]
      exact Bool.not_eq_true _ ▸ Bool.of_not_eq_true h

theorem subQuoteAux_zero (q : Char) (s : List Char) : subQuoteAux q 0 s = s := by
  cases s <;> rfl

theorem subQuoteAux_fuel (q : Char) (fuel1 : Nat) :
    ∀ (fuel2 : Nat) (s : List Char), s.length ≤ fuel1 → s.length ≤ fuel2 →
      subQuoteAux q fuel1 s = subQuoteAux q fuel2 s := by
  induction fuel1 with
  | zero =>
    intro fuel2 s h1 _
    have hs : s = [] := List.eq_nil_of_length_eq_zero (Nat.le_zero.mp h1)
    subst hs
    cases fuel2 <;> rfl
  | succ f ih =>
    intro fuel2 s h1 h2
    cases s with
    | nil => cases fuel2 <;> rfl
    | cons c cs =>
      cases fuel2 with
      | zero => simp at h2
      | succ f2 =>
        simp only [subQuoteAux]
        by_cases hc : c = q
        · rw [if_pos hc, if_pos hc]
          cases hd : cs.dropWhile (fun d => !(d = q)) with
          | nil => rfl
          | cons x tail =>
            have hlen : (cs.dropWhile (fun d => !(d = q))).length ≤ cs.length :=
              (List.dropWhile_suffix _).sublist.length_le
            rw [hd] at hlen
            simp only [List.length_cons] at hlen h1 h2
            exact ih f2 tail (by omega) (by omega)
        · rw [if_neg hc, if_neg hc]
          simp only [List.length_cons] at h1 h2
          rw [ih f2 cs (by omega) (by omega)]

theorem subQuoteAux_copy (q : Char) (l : List Char) :
    ∀ (fuel : Nat) (r : List Char), q ∉ l →
      subQuoteAux q fuel (l ++ r) = l ++ subQuoteAux q (fuel - l.length) r := by
  induction l with
  | nil => intro fuel r _; simp
  | cons c l' ih =>
    intro fuel r hq
    have hc : ¬(c = q) := fun h => hq (h ▸ List.mem_cons_self c l')
    have hq' : q ∉ l' := fun h => hq (List.mem_cons_of_mem _ h)
    cases fuel with
    | zero =>
      rw [List.cons_append, subQuoteAux_zero, Nat.zero_sub, subQuoteAux_zero]
      simp
    | succ f =>
      rw [List.cons_append]
      simp only [subQuoteAux]
      rw [if_neg hc, ih f r hq']
      simp only [List.length_cons, Nat.succ_sub_succ, List.cons_append]

theorem dropWhile_append_quote (q : Char) (s r : List Char) (hq : q ∉ s) :
    (s ++ q :: r).dropWhile (fun d => !(d = q)) = q :: r := by
  induction s with
  | nil =>
    rw [List.nil_append]
    rw [List.dropWhile_cons_of_neg (by simp)]
  | cons c s' ih =>
    have hc : ¬(c = q) := fun h => hq (h ▸ List.mem_cons_self c s')
    have hq' : q ∉ s' := fun h => hq (List.mem_cons_of_mem _ h)
    rw [List.cons_append, List.dropWhile_cons_of_pos (by simp [hc])]
    exact ih hq'

theorem subQuote_append (q : Char) (l r : List Char) (hq : q ∉ l) :
    subQuote q (l ++ r) = l ++ subQuote q r := by
  unfold subQuote
  rw [subQuoteAux_copy q l _ r hq]
  have harith : (l ++ r).length - l.length = r.length := by
    simp [List.length_append]
  rw [harith]

theorem subQuote_skip (q : Char) (s r : List Char) (hq : q ∉ s) :
    subQuote q (q :: (s ++ q :: r)) = subQuote q r := by
  unfold subQuote
  rw [show (q :: (s ++ q :: r)).length = (s ++ q :: r).length + 1 from
    List.length_cons q _]
  simp only [subQuoteAux, if_pos rfl]
  rw [dropWhile_append_quote q s r hq]
  exact subQuoteAux_fuel q _ _ r (by simp [List.length_append]; omega)
    (Nat.le_refl _)

theorem renderSegs_cons (sg : Seg) (rest : List Seg) :
    renderSegs (sg :: rest) = sg.render ++ renderSegs rest := by
  simp [renderSegs]

theorem renderNoSlits_cons_plain (s : List Char) (rest : List Seg) :
    renderNoSlits (Seg.plain s :: rest) = s ++ renderNoSlits rest := by
  simp [renderNoSlits]

theorem renderNoSlits_cons_slit (s : List Char) (rest : List Seg) :
    renderNoSlits (Seg.slit s :: rest) = renderNoSlits rest := by
  simp [renderNoSlits]

theorem renderNoSlits_cons_dlit (s : List Char) (rest : List Seg) :
    renderNoSlits (Seg.dlit s :: rest) = (dq :: s ++ [dq]) ++ renderNoSlits rest := by
  simp [renderNoSlits]

theorem strippedSegs_cons_plain (s : List Char) (rest : List Seg) :
    strippedSegs (Seg.plain s :: rest) = s ++ strippedSegs rest := by
  simp [strippedSegs]

theorem strippedSegs_cons_slit (s : List Char) (rest : List Seg) :
    strippedSegs (Seg.slit s :: rest) = strippedSegs rest := by
  simp [strippedSegs]

theorem strippedSegs_cons_dlit (s : List Char) (rest : List Seg) :
    strippedSegs (Seg.dlit s :: rest) = strippedSegs rest := by
  simp [strippedSegs]

theorem subQuote_sq_renderSegs (segs : List Seg)
    (hwf : ∀ sg ∈ segs, sg.WF) :
    subQuote sq (renderSegs segs) = renderNoSlits segs := by
  induction segs with
  | nil => rfl
  | cons sg rest ih =>
    have hsg := hwf sg (List.mem_cons_self _ _)
    have hrest : ∀ x ∈ rest, Seg.WF x :=
      fun x hx => hwf x (List.mem_cons_of_mem _ hx)
    rw [renderSegs_cons]
    cases sg with
    | plain s =>
      obtain ⟨h1, _⟩ := hsg
      rw [show Seg.render (Seg.plain s) = s from rfl]
      rw [subQuote_append sq s _ h1, ih hrest, renderNoSlits_cons_plain]
    | slit s =>
      rw [show Seg.render (Seg.slit s) = sq :: s ++ [sq] from rfl]
      have hshape : (sq :: s ++ [sq]) ++ renderSegs rest
          = sq :: (s ++ sq :: renderSegs rest) := by
        simp
      rw [hshape, subQuote_skip sq s _ hsg, ih hrest, renderNoSlits_cons_slit]
    | dlit s =>
      obtain ⟨h1, _⟩ := hsg
      rw [show Seg.render (Seg.dlit s) = dq :: s ++ [dq] from rfl]
      have hnot : sq ∉ (dq :: s ++ [dq]) := by
        intro hmem
        rw [List.cons_append] at hmem
        rcases List.mem_cons.mp hmem with h | h
        · exact absurd h (by decide)
        · rcases List.mem_append.mp h with h2 | h2
          · exact h1 h2
          · exact absurd (List.mem_singleton.mp h2) (by decide)
      rw [subQuote_append sq _ _ hnot, ih hrest, renderNoSlits_cons_dlit]

theorem subQuote_dq_renderNoSlits (segs : List Seg)
    (hwf : ∀ sg ∈ segs, sg.WF) :
    subQuote dq (renderNoSlits segs) = strippedSegs segs := by
  induction segs with
  | nil => rfl
  | cons sg rest ih =>
    have hsg := hwf sg (List.mem_cons_self _ _)
    have hrest : ∀ x ∈ rest, Seg.WF x :=
      fun x hx => hwf x (List.mem_cons_of_mem _ hx)
    cases sg with
    | plain s =>
      obtain ⟨_, h2⟩ := hsg
      rw [renderNoSlits_cons_plain, subQuote_append dq s _ h2, ih hrest,
        strippedSegs_cons_plain]
    | slit s =>
      rw [renderNoSlits_cons_slit, ih hrest, strippedSegs_cons_slit]
    | dlit s =>
      obtain ⟨_, h2⟩ := hsg
      rw [renderNoSlits_cons_dlit]
      have hshape : (dq :: s ++ [dq]) ++ renderNoSlits rest
          = dq :: (s ++ dq :: renderNoSlits rest) := by
        simp
      rw [hshape, subQuote_skip dq s _ h2, ih hrest, strippedSegs_cons_dlit]

theorem removeAttrsAux_zero (s : List Char) : removeAttrsAux 0 s = s := by
  cases s <;> rfl

theorem removeAttrsAux_head_not (fuel : Nat) :
    ∀ s : List Char, (s = [] ∨ isWordChar (s.headD ' ') = false) →
      removeAttrsAux fuel s = [] ∨
        isWordChar ((removeAttrsAux fuel s).headD ' ') = false := by
  induction fuel with
  | zero => intro s h; rw [removeAttrsAux_zero]; exact h
  | succ f ih =>
    intro s h
    cases s with
    | nil => exact Or.inl rfl
    | cons c cs =>
      rcases h with h | h
      · cases h
      · rw [List.headD_cons] at h
        simp only [removeAttrsAux]
        by_cases hm : (c = '.' && isIdentStart (cs.headD ' ')) = true
        · rw [if_pos hm]
          exact ih _ (dropWhile_head_not isWordChar cs ' ')
        · rw [if_neg hm]
          right
          rw [List.headD_cons]
          exact h

theorem removeAttrsAux_prefix (fuel : Nat) :
    ∀ (s t : List Char), (∀ c ∈ t, isWordChar c = true) →
      t <+: removeAttrsAux fuel s → t <+: s := by
  induction fuel with
  | zero => intro s t _ h; rw [removeAttrsAux_zero] at h; exact h
  | succ f ih =>
    intro s t hword h
    cases t with
    | nil => exact List.nil_prefix
    | cons t0 t' =>
      cases s with
      | nil =>
        simp only [removeAttrsAux] at h
        exact h
      | cons c cs =>
        simp only [removeAttrsAux] at h
        by_cases hm : (c = '.' && isIdentStart (cs.headD ' ')) = true
        · rw [if_pos hm] at h
          rcases removeAttrsAux_head_not f _
              (dropWhile_head_not isWordChar cs ' ') with hh | hh
          · rw [hh] at h
            have := h.length_le
            simp at this
          · exfalso
            cases hx : removeAttrsAux f (cs.dropWhile isWordChar) with
            | nil =>
              rw [hx] at h
              have := h.length_le
              simp at this
            | cons x xs =>
              rw [hx] at h
              have ht0 := (List.cons_prefix_cons.mp h).1
              have hw := hword t0 (List.mem_cons_self _ _)
              rw [hx, List.headD_cons] at hh
              rw [ht0, hh] at hw
              cases hw
        · rw [if_neg hm] at h
          obtain ⟨h0, h'⟩ := List.cons_prefix_cons.mp h
          subst h0
          exact List.cons_prefix_cons.mpr
            ⟨rfl, ih cs t' (fun x hx => hword x (List.mem_cons_of_mem _ hx)) h'⟩

theorem removeAttrsAux_infix (fuel : Nat) :
    ∀ (s t : List Char), (∀ c ∈ t, isWordChar c = true) →
      t <:+: removeAttrsAux fuel s → t <:+: s := by
  induction fuel with
  | zero => intro s t _ h; rw [removeAttrsAux_zero] at h; exact h
  | succ f ih =>
    intro s t hword h
    cases s with
    | nil =>
      simp only [removeAttrsAux] at h
      exact h
    | cons c cs =>
      simp only [removeAttrsAux] at h
      by_cases hm : (c = '.' && isIdentStart (cs.headD ' ')) = true
      · rw [if_pos hm] at h
        have h2 := ih _ t hword h
        exact (h2.trans (suffix_to_inf (List.dropWhile_suffix isWordChar))).trans
          (suffix_to_inf (List.suffix_cons c cs))
      · rw [if_neg hm] at h
        rcases List.infix_cons_iff.mp h with h2 | h2
        · cases t with
          | nil => exact List.nil_infix
          | cons t0 t' =>
            obtain ⟨h0, h'⟩ := List.cons_prefix_cons.mp h2
            subst h0
            have h3 := removeAttrsAux_prefix f cs t'
              (fun x hx => hword x (List.mem_cons_of_mem _ hx)) h'
            exact prefix_to_inf (List.cons_prefix_cons.mpr ⟨rfl, h3⟩)
        · exact (ih cs t hword h2).trans (suffix_to_inf (List.suffix_cons c cs))

theorem removeKwargsAux_zero (prev : Bool) (s : List Char) :
    removeKwargsAux 0 prev s = s := by
  cases s <;> rfl

theorem removeKwargsAux_prefix (fuel : Nat) :
    ∀ (s t : List Char), (∀ c ∈ t, isWordChar c = true) →
      t <+: removeKwargsAux fuel true s → t <+: s := by
  induction fuel with
  | zero => intro s t _ h; rw [removeKwargsAux_zero] at h; exact h
  | succ f ih =>
    intro s t hword h
    cases t with
    | nil => exact List.nil_prefix
    | cons t0 t' =>
      cases s with
      | nil =>
        simp only [removeKwargsAux] at h
        exact h
      | cons c cs =>
        simp only [removeKwargsAux, Bool.not_true, Bool.false_and,
          Bool.false_eq_true, if_false] at h
        obtain ⟨h0, h'⟩ := List.cons_prefix_cons.mp h
        subst h0
        have hcw : isWordChar t0 = true := hword t0 (List.mem_cons_self _ _)
        rw [hcw] at h'
        exact List.cons_prefix_cons.mpr ⟨rfl,
          ih cs t' (fun x hx => hword x (List.mem_cons_of_mem _ hx)) h'⟩

theorem removeKwargsAux_infix (fuel : Nat) :
    ∀ (prev : Bool) (s t : List Char), (∀ c ∈ t, isWordChar c = true) →
      t <:+: removeKwargsAux fuel prev s → t <:+: s := by
  induction fuel with
  | zero => intro prev s t _ h; rw [removeKwargsAux_zero] at h; exact h
  | succ f ih =>
    intro prev s t hword h
    cases s with
    | nil =>
      simp only [removeKwargsAux] at h
      exact h
    | cons c cs =>
      simp only [removeKwargsAux] at h
      by_cases hm : (!prev && isIdentStart c) = true
      · rw [if_pos hm] at h
        by_cases he :
            ((cs.dropWhile isWordChar).dropWhile isPySpace).headD ' ' = '='
        · rw [if_pos he] at h
          rcases List.infix_cons_iff.mp h with h2 | h2
          · cases t with
            | nil => exact List.nil_infix
            | cons t0 t' =>
              have h0 := (List.cons_prefix_cons.mp h2).1
              have hw := hword t0 (List.mem_cons_self _ _)
              rw [h0] at hw
              exact absurd hw (by decide)
          · have h3 := ih false _ t hword h2
            exact h3.trans (suffix_to_inf ((List.tail_suffix _).trans
              ((List.dropWhile_suffix _).trans
                ((List.dropWhile_suffix _).trans
                  (List.suffix_cons c cs)))))
        · rw [if_neg he] at h
          rcases List.infix_cons_iff.mp h with h2 | h2
          · cases t with
            | nil => exact List.nil_infix
            | cons t0 t' =>
              obtain ⟨h0, h'⟩ := List.cons_prefix_cons.mp h2
              subst h0
              have h3 := removeKwargsAux_prefix f cs t'
                (fun x hx => hword x (List.mem_cons_of_mem _ hx)) h'
              exact prefix_to_inf (List.cons_prefix_cons.mpr ⟨rfl, h3⟩)
          · exact (ih true cs t hword h2).trans
              (suffix_to_inf (List.suffix_cons c cs))
      · rw [if_neg hm] at h
        rcases List.infix_cons_iff.mp h with h2 | h2
        · cases t with
          | nil => exact List.nil_infix
          | cons t0 t' =>
            obtain ⟨h0, h'⟩ := List.cons_prefix_cons.mp h2
            subst h0
            have hcw : isWordChar t0 = true := hword t0 (List.mem_cons_self _ _)
            rw [hcw] at h'
            have h3 := removeKwargsAux_prefix f cs t'
              (fun x hx => hword x (List.mem_cons_of_mem _ hx)) h'
            exact prefix_to_inf (List.cons_prefix_cons.mpr ⟨rfl, h3⟩)
        · exact (ih _ cs t hword h2).trans
            (suffix_to_inf (List.suffix_cons c cs))

theorem removeNumsAux_zero (prev : Bool) (s : List Char) :
    removeNumsAux 0 prev s = s := by
  cases s <;> rfl

theorem removeNumsAux_prefix (fuel : Nat) :
    ∀ (s t : List Char), (∀ c ∈ t, isWordChar c = true) →
      t <+: removeNumsAux fuel true s → t <+: s := by
  induction fuel with
  | zero => intro s t _ h; rw [removeNumsAux_zero] at h; exact h
  | succ f ih =>
    intro s t hword h
    cases t with
    | nil => exact List.nil_prefix
    | cons t0 t' =>
      cases s with
      | nil =>
        simp only [removeNumsAux] at h
        exact h
      | cons c cs =>
        simp only [removeNumsAux, Bool.not_true, Bool.false_and,
          Bool.false_eq_true, if_false] at h
        obtain ⟨h0, h'⟩ := List.cons_prefix_cons.mp h
        subst h0
        have hcw : isWordChar t0 = true := hword t0 (List.mem_cons_self _ _)
        rw [hcw] at h'
        exact List.cons_prefix_cons.mpr ⟨rfl,
          ih cs t' (fun x hx => hword x (List.mem_cons_of_mem _ hx)) h'⟩

theorem removeNumsAux_infix (fuel : Nat) :
    ∀ (prev : Bool) (s t : List Char), (∀ c ∈ t, isWordChar c = true) →
      t <:+: removeNumsAux fuel prev s → t <:+: s := by
  induction fuel with
  | zero => intro prev s t _ h; rw [removeNumsAux_zero] at h; exact h
  | succ f ih =>
    intro prev s t hword h
    cases s with
    | nil =>
      simp only [removeNumsAux] at h
      exact h
    | cons c cs =>
      have hr1 : cs.dropWhile isDigitChar <:+ c :: cs :=
        (List.dropWhile_suffix _).trans (List.suffix_cons c cs)
      have hr2 : (cs.dropWhile isDigitChar).tail <:+ c :: cs :=
        (List.tail_suffix _).trans hr1
      have hr3 : ((cs.dropWhile isDigitChar).tail).dropWhile isDigitChar
          <:+ c :: cs :=
        (List.dropWhile_suffix _).trans hr2
      simp only [removeNumsAux] at h
      by_cases hm : (!prev && isDigitChar c) = true
      · rw [if_pos hm] at h
        by_cases hd : (cs.dropWhile isDigitChar).headD ' ' = '.'
        · rw [if_pos hd] at h
          by_cases h1 :
              (!(((cs.dropWhile isDigitChar).tail).takeWhile
                isDigitChar).isEmpty) = true
          · rw [if_pos h1] at h
            by_cases h2 :
                ((((cs.dropWhile isDigitChar).tail).dropWhile
                    isDigitChar).isEmpty ||
                  !isWordChar ((((cs.dropWhile isDigitChar).tail).dropWhile
                    isDigitChar).headD ' ')) = true
            · rw [if_pos h2] at h
              exact (ih true _ t hword h).trans (suffix_to_inf hr3)
            · rw [if_neg h2] at h
              exact (ih false _ t hword h).trans (suffix_to_inf hr2)
          · rw [if_neg h1] at h
            by_cases h2 :
                (!((cs.dropWhile isDigitChar).tail).isEmpty &&
                  isWordChar (((cs.dropWhile isDigitChar).tail).headD ' '))
                  = true
            · rw [if_pos h2] at h
              exact (ih false _ t hword h).trans (suffix_to_inf hr2)
            · rw [if_neg h2] at h
              exact (ih true _ t hword h).trans (suffix_to_inf hr1)
        · rw [if_neg hd] at h
          by_cases h2 :
              ((cs.dropWhile isDigitChar).isEmpty ||
                !isWordChar ((cs.dropWhile isDigitChar).headD ' ')) = true
          · rw [if_pos h2] at h
            exact (ih true _ t hword h).trans (suffix_to_inf hr1)
          · rw [if_neg h2] at h
            rcases List.infix_cons_iff.mp h with h3 | h3
            · cases t with
              | nil => exact List.nil_infix
              | cons t0 t' =>
                obtain ⟨h0, h'⟩ := List.cons_prefix_cons.mp h3
                subst h0
                have h4 := removeNumsAux_prefix f cs t'
                  (fun x hx => hword x (List.mem_cons_of_mem _ hx)) h'
                exact prefix_to_inf (List.cons_prefix_cons.mpr ⟨rfl, h4⟩)
            · exact (ih true cs t hword h3).trans
                (suffix_to_inf (List.suffix_cons c cs))
      · rw [if_neg hm] at h
        rcases List.infix_cons_iff.mp h with h3 | h3
        · cases t with
          | nil => exact List.nil_infix
          | cons t0 t' =>
            obtain ⟨h0, h'⟩ := List.cons_prefix_cons.mp h3
            subst h0
            have hcw : isWordChar t0 = true := hword t0 (List.mem_cons_self _ _)
            rw [hcw] at h'
            have h4 := removeNumsAux_prefix f cs t'
              (fun x hx => hword x (List.mem_cons_of_mem _ hx)) h'
            exact prefix_to_inf (List.cons_prefix_cons.mpr ⟨rfl, h4⟩)
        · exact (ih _ cs t hword h3).trans
            (suffix_to_inf (List.suffix_cons c cs))

theorem scanTokensAux_infix (fuel : Nat) :
    ∀ (prevB : Bool) (s t : List Char), t ∈ scanTokensAux fuel prevB s →
      t <:+: s := by
  induction fuel with
  | zero =>
    intro prevB s t h
    cases s with
    | nil => cases h
    | cons c cs => cases h
  | succ f ih =>
    intro prevB s t h
    cases s with
    | nil => cases h
    | cons c cs =>
      simp only [scanTokensAux] at h
      by_cases hm : (!prevB && isIdentStart c) = true
      · rw [if_pos hm] at h
        rcases List.mem_cons.mp h with h2 | h2
        · subst h2
          exact prefix_to_inf (List.cons_prefix_cons.mpr
            ⟨rfl, List.takeWhile_prefix isWordChar⟩)
        · exact (ih true _ t h2).trans
            (suffix_to_inf ((List.dropWhile_suffix isWordChar).trans
              (List.suffix_cons c cs)))
      · rw [if_neg hm] at h
        exact (ih _ cs t h).trans (suffix_to_inf (List.suffix_cons c cs))

theorem extract_infix_stripped {block t : List Char}
    (hword : ∀ c ∈ t, isWordChar c = true)
    (hmem : t ∈ extract_variable_references block) :
    t <:+: subQuote dq (subQuote sq block) := by
  unfold extract_variable_references at hmem
  rw [List.mem_dedup] at hmem
  have hmem2 := List.mem_of_mem_filter hmem
  have h1 := scanTokensAux_infix _ _ _ _ hmem2
  have h2 := removeKwargsAux_infix _ _ _ _ hword h1
  have h3 := removeAttrsAux_infix _ _ _ hword h2
  exact removeNumsAux_infix _ _ _ _ hword h3

/-- C2 (amended): an identifier occurring only inside quoted string
literals of a template's Jinja blocks never produces an undefined-reference
Error, provided each block is quote-structured — every literal terminated,
no quote character of one kind inside a literal of the other — and the
identifier does not occur as a substring of the block text left after the
literals are removed (so removal does not splice its name together from
the surrounding fragments). -/
theorem c2_literal_identifiers_no_error (var_name : String)
    (context defined : List String) (value t : List Char)
    (hw : wordOnly t)
    (hblocks : ∀ b ∈ jinjaBlocks value, ∃ segs : List Seg,
      (∀ sg ∈ segs, sg.WF) ∧ b = renderSegs segs ∧
      ¬ t <:+: strippedSegs segs) :
    ∀ e ∈ check_undefined_variable_references var_name value context defined,
      e.2 ≠ t := by
  intro e he hcon
  unfold check_undefined_variable_references at he
  rw [List.mem_flatMap] at he
  obtain ⟨b, hb, hmem⟩ := he
  obtain ⟨segs, hwf, hbeq, hnin⟩ := hblocks b hb
  have hex := (blockUndefinedErrors_mem hmem).2.1
  rw [hcon] at hex
  have h1 := extract_infix_stripped hw.2 hex
  rw [hbeq, subQuote_sq_renderSegs segs hwf,
    subQuote_dq_renderNoSlits segs hwf] at h1
  exact hnin h1

/-- C2 witness: in `{{ 'cde' }}` the identifier `cde` occurs only inside a
single-quoted literal, and no undefined-reference Error names it. -/
theorem c2_literal_identifiers_no_error_witness :
    wordOnly ("cde".data) ∧
    (∀ e ∈ check_undefined_variable_references "v"
        ("\x7b\x7b \x27cde\x27 \x7d\x7d").data [] [], e.2 ≠ "cde".data) := by
  refine ⟨by decide, ?_⟩
  apply c2_literal_identifiers_no_error "v" [] [] _ _ (by decide)
  intro b hb
  rw [show jinjaBlocks (("\x7b\x7b \x27cde\x27 \x7d\x7d").data)
      = [(" \x27cde\x27 ").data] from by decide] at hb
  have hb2 := List.mem_singleton.mp hb
  subst hb2
  exact ⟨[Seg.plain " ".data, Seg.slit "cde".data, Seg.plain " ".data],
    by decide, by decide, by decide⟩

/-- C2 counterexample: the claim as stated fails on mixed quoting.  In the
block of `{{ "a ' b" ~ "foo" ~ 'cde' }}` every occurrence of `cde` lies
inside a string literal under the spec's quote scanner (the single quote in
the first double-quoted literal is inert there), yet the check reports an
undefined reference to `cde`: the single-quote substitution of
`_extract_variable_references` pairs that inert quote with the opening
quote of `'cde'`, leaving `cde` outside any removed literal. -/
theorem c2_counterexample :
    exprBlocks ("\x7b\x7b \x22a \x27 b\x22 ~ \x22foo\x22 ~ \x27cde\x27 \x7d\x7d").data
      = [(" \x22a \x27 b\x22 ~ \x22foo\x22 ~ \x27cde\x27 ").data] ∧
    occursOnlyInLiterals "cde".data
      (" \x22a \x27 b\x22 ~ \x22foo\x22 ~ \x27cde\x27 ").data = true ∧
    ("myvar", "cde".data) ∈ check_undefined_variable_references "myvar"
      ("\x7b\x7b \x22a \x27 b\x22 ~ \x22foo\x22 ~ \x27cde\x27 \x7d\x7d").data [] [] := by
  refine ⟨by decide, by decide, by decide⟩

end Blueprint
